import Mathlib

/-!
Verification of the temporal alignment and normalization engine of the
musk-dogecoin-impact-analysis dashboard.

The development shallowly embeds the core data-processing functions of the
repository:

* `calculate_avg_price_at_tweet_time` (src/data_utils/processing.py) — the
  minute-floored join of tweet timestamps against the price series, producing
  the "average price at tweet time" KPI;
* `_process_single_tweet` (src/mydash/pages/callbacks/home_callbacks.py) —
  per-event windowing and normalization (`windowFor` here);
* `_add_average_trend` / the aggregation block of `create_tweet_impact_figure`
  (both callback variants) — cross-event bucketing and peak detection
  (`aggregate` / `aggregatePeak` here);
* the two `convert_date_to_timestamp` variants (processing.py vs
  formatters.py) and the DataFrame timestamp/datetime conversion helpers
  (utils.py / processing.py).

Conventions of the embedding: epoch timestamps are `Int` (seconds); prices and
derived quantities are exact rationals `ℚ` standing for the float values the
source computes (the properties proved are exact-arithmetic facts, matching
the spec's "within floating-point epsilon" reading).  Pandas boolean-mask row
selection becomes `List.filter` (order-preserving), `Series.mean` with NaN
skipping becomes "sum of present values over their count, 0 on the empty
mean", and `drop_duplicates(keep first)` / left merge become an explicit
first-occurrence index.
-/

/-- One row of the price table: the `timestamp` column (epoch seconds) and the
`open` price column, the only two columns the core reads. -/
structure PricePoint where
  timestamp : Int
  openPrice : ℚ
deriving DecidableEq, Repr

/-- One row of a normalized per-event window, mirroring the two columns
`relative_hours` and `normalized_price` the source keeps from `window_df`. -/
structure NormPoint where
  relative_hours : ℚ
  normalized_price : ℚ
deriving DecidableEq, Repr

/-- One bucket of the aggregated mean-impact curve produced by the
`groupby("relative_hours").mean()` block. -/
structure Bucket where
  relative_hours : ℚ
  mean_normalized_price : ℚ
deriving DecidableEq, Repr

/-- Embeds `pd.to_datetime(ts, unit="s").dt.floor("min")` /
`created_at.floor("min").timestamp()`: truncation of an epoch second down to
the start of its minute (floor toward negative infinity, as pandas floors). -/
def floorToMinute (t : Int) : Int := t - t.emod 60

/-- The configured half-window width from src/config/config.py, line 108:
`RELATIVE_TIME_SPREAD_HOURS = 6 * 3600` (used directly as seconds). -/
def RELATIVE_TIME_SPREAD_HOURS : Int := 6 * 3600

/-- Embeds the construction of `price_lookup`: pairs every stock row's floored
minute with its open price, then `drop_duplicates(subset=["align_dt"])`, which
keeps the first row seen for each minute. `seen` accumulates the minutes
already emitted. -/
def dropDupFirstAux : List Int → List (Int × ℚ) → List (Int × ℚ)
  | _, [] => []
  | seen, (k, v) :: rest =>
    if k ∈ seen then dropDupFirstAux seen rest
    else (k, v) :: dropDupFirstAux (k :: seen) rest

/-- The minute index (`price_lookup` DataFrame): floored minute keyed to the
first open price observed at that minute. -/
def buildMinuteIndex (stocks : List PricePoint) : List (Int × ℚ) :=
  dropDupFirstAux [] (stocks.map (fun p => (floorToMinute p.timestamp, p.openPrice)))

/-- Embeds the left merge on `align_dt` for one tweet row: the price the merge
attaches to a floored tweet minute, `none` when unmatched (NaN). -/
def lookupMinute (idx : List (Int × ℚ)) (m : Int) : Option ℚ :=
  (idx.find? (fun p => p.1 == m)).map (·.2)

/-- Embeds `calculate_avg_price_at_tweet_time` from
src/data_utils/processing.py (lines 23–63).  `tweets` is the `timestamp`
column of `tweet_df`, `stocks` the (`timestamp`, `open`) columns of
`stock_df`.  Empty inputs return 0; the left merge yields one optional price
per tweet; `Series.mean` skips the NaNs and is itself NaN — mapped to the 0.0
return — when nothing matched. -/
def calculate_avg_price_at_tweet_time (tweets : List Int) (stocks : List PricePoint) : ℚ :=
  if tweets = [] ∨ stocks = [] then 0 else
  let tweetMinutes := tweets.map floorToMinute
  let priceLookup := buildMinuteIndex stocks
  let merged : List (Option ℚ) := tweetMinutes.map (lookupMinute priceLookup)
  let vals := merged.filterMap id
  if vals = [] then 0 else vals.sum / vals.length

/-- The prices the join actually matches: one price per tweet whose floored
minute hits the minute index, in tweet order. -/
def matchedPrices (tweets : List Int) (stocks : List PricePoint) : List ℚ :=
  tweets.filterMap (fun ts => lookupMinute (buildMinuteIndex stocks) (floorToMinute ts))

/-- Embeds `window_df = stock_data_full[(timestamp >= t - spread) & (timestamp <= t + spread)]`:
the boolean-mask slice of the price series to the closed window around `t`,
order preserved. -/
def sliceWindow (stocks : List PricePoint) (t spread : Int) : List PricePoint :=
  stocks.filter (fun p => decide (t - spread ≤ p.timestamp) && decide (p.timestamp ≤ t + spread))

/-- Embeds `window_df.iloc[(window_df["timestamp"] - t_time).abs().argsort()[:1]]`:
the head of an argsort of the window by absolute distance to `t` — always a
row of minimal `|timestamp - t|`.  Caveat: `Series.argsort` defaults to
numpy's quicksort, which is not stable, so when several rows tie on the
minimal distance the source does not determine which of them the head is;
this deterministic embedding refines that free choice to the earliest such
row.  Nothing proved about an approved claim depends on the tie order. -/
def nearestFirst (t : Int) : List PricePoint → Option PricePoint
  | [] => none
  | p :: ps =>
    match nearestFirst t ps with
    | none => some p
    | some r => some (if |r.timestamp - t| < |p.timestamp - t| then r else p)

/-- Embeds the anchor-price selection of `_process_single_tweet`: the first row
of `window_df[window_df["timestamp"] == t_time]` when an exact floored-minute
match exists, otherwise the nearest-by-absolute-difference fallback; `none`
exactly when the window is empty. -/
def anchorPrice (w : List PricePoint) (t : Int) : Option ℚ :=
  match w.filter (fun p => p.timestamp == t) with
  | p :: _ => some p.openPrice
  | [] => (nearestFirst t w).map (·.openPrice)

/-- Embeds `positive_df["normalized_price"].idxmax()`-style selection: the first
element of the list attaining the maximal value of `f` (pandas `idxmax`
returns the first index at the maximum). -/
def idxmaxBy {α : Type} (f : α → ℚ) : List α → Option α
  | [] => none
  | a :: as =>
    match idxmaxBy f as with
    | none => some a
    | some r => some (if f a < f r then r else a)

/-- Embeds the two column assignments
`window_df["normalized_price"] = window_df["open"] / price_at_tweet` and
`window_df["relative_hours"] = (window_df["timestamp"] - t_time) / 3600` for
one row of the window. -/
def normalizePoint (t : Int) (a : ℚ) (p : PricePoint) : NormPoint :=
  { relative_hours := ((p.timestamp - t : Int) : ℚ) / 3600
    normalized_price := p.openPrice / a }

/-- Embeds the per-event peak block: restrict to strictly positive
`relative_hours`, then `(max normalized_price, relative_hours at idxmax)`;
`none` when no strictly-post-event row exists. -/
def peakOf (pts : List NormPoint) : Option (ℚ × ℚ) :=
  (idxmaxBy (fun q => q.normalized_price)
      (pts.filter (fun q => decide (0 < q.relative_hours)))).map
    (fun q => (q.normalized_price, q.relative_hours))

/-- Embeds `_process_single_tweet` from
src/mydash/pages/callbacks/home_callbacks.py (lines 361–415), stripped of the
plotting side effects (the created figure traces carry no data the pipeline
consumes downstream): floored event minute, window slice, anchor price,
normalization, relative hours and the strictly-post-event peak.  `none` models
the `return None, None` on an empty slice. -/
def windowFor (eventTs : Int) (stocks : List PricePoint) (spread : Int) :
    Option (List NormPoint × Option (ℚ × ℚ)) :=
  let t := floorToMinute eventTs
  let w := sliceWindow stocks t spread
  match anchorPrice w t with
  | none => none
  | some a =>
    let pts := w.map (normalizePoint t a)
    some (pts, peakOf pts)

/-- Embeds the per-event loop of `create_tweet_impact_figure`: each event is
processed independently; an event whose window is empty contributes neither a
normalized series nor a peak, and the loop continues with the remaining
events.  Returns (all normalized series, all per-event peaks), each in event
order. -/
def processAllTweets (stocks : List PricePoint) (spread : Int) :
    List Int → List (List NormPoint) × List (ℚ × ℚ)
  | [] => ([], [])
  | e :: rest =>
    let acc := processAllTweets stocks spread rest
    match windowFor e stocks spread with
    | none => acc
    | some (pts, peak) =>
      (pts :: acc.1, match peak with | none => acc.2 | some pk => pk :: acc.2)

/-- Embeds `round(4)` applied to the `relative_hours` column: rounding to four
decimal places, half-to-even as numpy rounds. -/
def round4 (q : ℚ) : ℚ :=
  let f : Int := ⌊q * 10000⌋
  let r : ℚ := q * 10000 - f
  let n : Int :=
    if r < 1/2 then f
    else if 1/2 < r then f + 1
    else if f.emod 2 = 0 then f else f + 1
  (n : ℚ) / 10000

/-- Embeds the key set of `groupby("relative_hours")` (pandas sorts group keys
ascending and makes them unique): inserts a key into an already
strictly-increasing key list, skipping duplicates. -/
def insertKey (x : ℚ) : List ℚ → List ℚ
  | [] => [x]
  | y :: ys =>
    if x < y then x :: y :: ys
    else if x = y then y :: ys
    else y :: insertKey x ys

/-- The ascending, duplicate-free list of group keys of a value list. -/
def sortedKeys (l : List ℚ) : List ℚ := l.foldr insertKey []

/-- The mean `normalized_price` of the points falling into the bucket keyed by
rounded relative hour `k`. -/
def bucketMean (pts : List NormPoint) (k : ℚ) : ℚ :=
  let vals := (pts.filter (fun p => decide (round4 p.relative_hours = k))).map (·.normalized_price)
  vals.sum / vals.length

/-- Embeds the aggregation block of `_add_average_trend`
(src/mydash/pages/callbacks/home_callbacks.py, lines 283–297): concatenate the
per-event windows, round `relative_hours` to 4 decimals, group by the rounded
key and take the mean `normalized_price` per group, keys ascending. -/
def aggregate (windows : List (List NormPoint)) : List Bucket :=
  let pts := windows.flatten
  (sortedKeys (pts.map (fun p => round4 p.relative_hours))).map
    (fun k => { relative_hours := k, mean_normalized_price := bucketMean pts k })

/-- Embeds the aggregate peak: restrict the mean curve to strictly positive
relative hours, take the maximal mean and (first) position where it is
attained, as `(value, relative_hours)`. -/
def aggregatePeak (windows : List (List NormPoint)) : Option (ℚ × ℚ) :=
  let post := (aggregate windows).filter (fun b => decide (0 < b.relative_hours))
  (idxmaxBy (·.mean_normalized_price) post).map
    (fun b => (b.mean_normalized_price, b.relative_hours))

/-- A pandas DataFrame restricted to what the timestamp/datetime conversion
helpers touch: named columns of epoch-second integers.  A tz-aware datetime
value is represented by its epoch seconds — the canonical image of
`pd.to_datetime(..., unit="s", utc=True)` — so both conversion directions act
as the identity on column contents and only the frame's column structure and
aliasing behaviour is modelled. -/
abbrev Frame := List (String × List Int)

/-- Reading a column; `none` models the KeyError a missing column raises. -/
def getCol (df : Frame) (name : String) : Option (List Int) :=
  (df.find? (fun c => c.1 == name)).map (·.2)

/-- Column assignment `df[name] = v`: replaces the column in place when it
exists, else appends it (pandas adds new columns at the end). -/
def setCol : Frame → String → List Int → Frame
  | [], n, v => [(n, v)]
  | c :: rest, n, v => if c.1 = n then (n, v) :: rest else c :: setCol rest n v

/-- Embeds `convert_unix_timestamp_to_datetime` from src/data_utils/utils.py
(lines 51–72; the copy in src/data_utils/processing.py lines 207–228 is
identical): there is no `df.copy()`, so
`df[new_column_name] = pd.to_datetime(df[timestamp_column], ...)` writes the
new column directly onto the caller's frame, and that same frame is returned.
The result is `(state of the caller's object after the call, returned
object)`; `none` models the KeyError on a missing timestamp column. -/
def convert_unix_timestamp_to_datetime (df : Frame)
    (timestamp_column new_column_name : String) : Option (Frame × Frame) :=
  (getCol df timestamp_column).map (fun ts =>
    let df2 := setCol df new_column_name ts
    (df2, df2))

/-- Embeds `convert_datetime_to_unix_timestamp` from src/data_utils/utils.py
(lines 21–48): `df = df.copy()` first, then the parsed datetime column is
written back and the integer-seconds column is added, both on the copy; the
caller's frame is untouched.  Result is `(state of the caller's object after
the call, returned object)`. -/
def convert_datetime_to_unix_timestamp (df : Frame)
    (date_column new_column_name : String) : Option (Frame × Frame) :=
  (getCol df date_column).map (fun dt =>
    let copy := setCol (setCol df date_column dt) new_column_name dt
    (df, copy))

/-- Days from a proleptic-Gregorian civil date to 1970-01-01, the arithmetic
underlying `datetime.timestamp()` for a midnight date (Euclidean division,
agreeing with the usual civil-date algorithm on every year). -/
def daysFromCivil (y m d : Int) : Int :=
  let yAdj := if m ≤ 2 then y - 1 else y
  let era := Int.ediv yAdj 400
  let yoe := yAdj - era * 400
  let mp := Int.emod (m + 9) 12
  let doy := Int.ediv (153 * mp + 2) 5 + d - 1
  let doe := yoe * 365 + Int.ediv yoe 4 - Int.ediv yoe 100 + doy
  era * 146097 + doe - 719468

/-- Embeds `convert_date_to_timestamp` from src/data_utils/formatters.py
(lines 4–25): `strptime` the "%Y-%m-%d" string into a midnight datetime,
`replace(tzinfo=timezone.utc)`, then the integral epoch timestamp.  The
parsed calendar fields stand in for the parsed string. -/
def formatters_convert_date_to_timestamp (y m d : Int) : Int :=
  daysFromCivil y m d * 86400

/-- Embeds `convert_date_to_timestamp` from src/data_utils/processing.py
(lines 66–85): `strptime` gives a naive midnight datetime and
`datetime.timestamp()` interprets it in the process-local timezone;
`tzOffset` is that timezone's UTC offset, in seconds, in effect at the parsed
instant (0 iff the process runs in UTC). -/
def processing_convert_date_to_timestamp (y m d : Int) (tzOffset : Int) : Int :=
  daysFromCivil y m d * 86400 - tzOffset

lemma lookupMinute_dropDupFirstAux (l : List (Int × ℚ)) :
    ∀ seen m, m ∉ seen →
      (dropDupFirstAux seen l).find? (fun p => p.1 == m) = l.find? (fun p => p.1 == m) := by
  induction l with
  | nil => intro seen m _; rfl
  | cons kv rest ih =>
    intro seen m hm
    obtain ⟨k, v⟩ := kv
    by_cases hk : k ∈ seen
    · have hkm : (k == m) = false := by
        simp only [beq_eq_false_iff_ne]
        rintro rfl; exact hm hk
      simp only [dropDupFirstAux, if_pos hk, ih seen m hm, List.find?, hkm]
    · by_cases hkm : k = m
      · subst hkm
        simp [dropDupFirstAux, if_neg hk, List.find?]
      · have hbm : (k == m) = false := by simpa using hkm
        have hm' : m ∉ k :: seen := by
          intro h
          rcases List.mem_cons.mp h with h | h
          · exact hkm h.symm
          · exact hm h
        simp only [dropDupFirstAux, if_neg hk, List.find?, hbm, ih (k :: seen) m hm']

/-- The minute index resolves a minute to the price of the first stock row in
series order whose floored timestamp equals it: `drop_duplicates` keeps first
occurrences. -/
lemma lookupMinute_buildMinuteIndex (stocks : List PricePoint) (m : Int) :
    lookupMinute (buildMinuteIndex stocks) m =
      (stocks.find? (fun p => floorToMinute p.timestamp == m)).map (·.openPrice) := by
  unfold lookupMinute buildMinuteIndex
  rw [lookupMinute_dropDupFirstAux _ [] m (List.not_mem_nil m)]
  rw [List.find?_map]
  rcases h : stocks.find? (fun p => floorToMinute p.timestamp == m) with _ | p
  · have h' : stocks.find?
        ((fun p : Int × ℚ => p.1 == m) ∘ fun p => (floorToMinute p.timestamp, p.openPrice)) = none := by
      simpa [Function.comp] using h
    simp [h', h]
  · have h' : stocks.find?
        ((fun p : Int × ℚ => p.1 == m) ∘ fun p => (floorToMinute p.timestamp, p.openPrice)) = some p := by
      simpa [Function.comp] using h
    simp [h', h]

lemma calculate_avg_eq_mean_matched (tweets : List Int) (stocks : List PricePoint)
    (h1 : tweets ≠ []) (h2 : stocks ≠ []) :
    calculate_avg_price_at_tweet_time tweets stocks =
      if matchedPrices tweets stocks = [] then 0
      else (matchedPrices tweets stocks).sum / (matchedPrices tweets stocks).length := by
  unfold calculate_avg_price_at_tweet_time matchedPrices
  have hcond : ¬ (tweets = [] ∨ stocks = []) := by
    rintro (h | h) <;> [exact h1 h; exact h2 h]
  rw [if_neg hcond]
  have hmap : ((tweets.map floorToMinute).map (lookupMinute (buildMinuteIndex stocks))).filterMap id
      = tweets.filterMap (fun ts => lookupMinute (buildMinuteIndex stocks) (floorToMinute ts)) := by
    rw [List.map_map, List.filterMap_map]
    rfl
  simp only [hmap]

lemma nearestFirst_spec (t : Int) :
    ∀ w : List PricePoint, w ≠ [] →
      ∃ p, nearestFirst t w = some p ∧ p ∈ w ∧
        (∀ q ∈ w, |p.timestamp - t| ≤ |q.timestamp - t|) ∧
        ∃ l₁ l₂, w = l₁ ++ p :: l₂ ∧ ∀ q ∈ l₁, |p.timestamp - t| < |q.timestamp - t| := by
  intro w
  induction w with
  | nil => intro h; exact absurd rfl h
  | cons a ws ih =>
    intro _
    rcases hws : ws with _ | ⟨b, ws'⟩
    · refine ⟨a, by simp [nearestFirst], List.mem_cons_self a [], ?_, [], [], rfl, by simp⟩
      intro q hq
      rcases List.mem_singleton.mp hq with rfl
      exact le_refl _
    · rw [← hws]
      have hne : ws ≠ [] := by simp [hws]
      obtain ⟨r, hr, hrmem, hrmin, l₁, l₂, hdec, hstrict⟩ := ih hne
      by_cases hlt : |r.timestamp - t| < |a.timestamp - t|
      · refine ⟨r, ?_, List.mem_cons_of_mem a hrmem, ?_, a :: l₁, l₂, by rw [hdec]; rfl, ?_⟩
        · simp [nearestFirst, hr, if_pos hlt]
        · intro q hq
          rcases List.mem_cons.mp hq with rfl | hq
          · exact le_of_lt hlt
          · exact hrmin q hq
        · intro q hq
          rcases List.mem_cons.mp hq with rfl | hq
          · exact hlt
          · exact hstrict q hq
      · refine ⟨a, ?_, List.mem_cons_self a ws, ?_, [], ws, rfl, by simp⟩
        · simp [nearestFirst, hr, if_neg hlt]
        · intro q hq
          rcases List.mem_cons.mp hq with rfl | hq
          · exact le_refl _
          · exact le_trans (not_lt.mp hlt) (hrmin q hq)

lemma anchorPrice_of_no_exact (w : List PricePoint) (t : Int)
    (hx : ∀ q ∈ w, q.timestamp ≠ t) :
    anchorPrice w t = (nearestFirst t w).map (·.openPrice) := by
  have hf : w.filter (fun p => p.timestamp == t) = [] := by
    rw [List.filter_eq_nil_iff]
    intro q hq
    simpa using hx q hq
  unfold anchorPrice
  rw [hf]

lemma anchorPrice_of_exact (w : List PricePoint) (t : Int) (p : PricePoint)
    (hmem : p ∈ w) (hts : p.timestamp = t)
    (huniq : ∀ q ∈ w, q.timestamp = t → q = p) :
    anchorPrice w t = some p.openPrice := by
  rcases hf : w.filter (fun p => p.timestamp == t) with _ | ⟨q, rest⟩
  · exfalso
    have : p ∈ w.filter (fun p => p.timestamp == t) :=
      List.mem_filter.mpr ⟨hmem, by simp [hts]⟩
    rw [hf] at this
    exact List.not_mem_nil p this
  · have hq : q ∈ w.filter (fun p => p.timestamp == t) := by
      rw [hf]; exact List.mem_cons_self q rest
    have hq' := List.mem_filter.mp hq
    have : q = p := huniq q hq'.1 (by simpa using hq'.2)
    unfold anchorPrice
    rw [hf, this]

lemma insertKey_head? (x : ℚ) :
    ∀ (l : List ℚ) (z : ℚ), (insertKey x l).head? = some z → z = x ∨ l.head? = some z := by
  intro l z h
  rcases l with _ | ⟨y, ys⟩
  · left
    simpa [insertKey] using h.symm
  · by_cases h1 : x < y
    · left
      rw [insertKey, if_pos h1] at h
      simpa using h.symm
    · by_cases h2 : x = y
      · right
        rw [insertKey, if_neg h1, if_pos h2] at h
        simpa using h
      · right
        rw [insertKey, if_neg h1, if_neg h2] at h
        simpa using h

lemma chain'_lt_insertKey (x : ℚ) :
    ∀ l : List ℚ, List.Chain' (· < ·) l → List.Chain' (· < ·) (insertKey x l) := by
  intro l
  induction l with
  | nil => intro _; simp [insertKey]
  | cons y ys ih =>
    intro h
    by_cases h1 : x < y
    · rw [insertKey, if_pos h1]
      exact List.chain'_cons.mpr ⟨h1, h⟩
    · by_cases h2 : x = y
      · rw [insertKey, if_neg h1, if_pos h2]
        exact h
      · rw [insertKey, if_neg h1, if_neg h2]
        have hyx : y < x := lt_of_le_of_ne (not_lt.mp h1) (fun e => h2 e.symm)
        have hys := (List.chain'_cons'.mp h).2
        refine List.chain'_cons'.mpr ⟨?_, ih hys⟩
        intro z hz
        rcases insertKey_head? x (ys) z hz with rfl | hz'
        · exact hyx
        · exact (List.chain'_cons'.mp h).1 z hz'

lemma chain'_lt_sortedKeys (l : List ℚ) : List.Chain' (· < ·) (sortedKeys l) := by
  induction l with
  | nil => simp [sortedKeys]
  | cons a l ih => exact chain'_lt_insertKey a (sortedKeys l) ih

lemma aggregate_map_relative_hours (windows : List (List NormPoint)) :
    (aggregate windows).map (fun b => b.relative_hours)
      = sortedKeys (windows.flatten.map (fun p => round4 p.relative_hours)) := by
  unfold aggregate
  rw [List.map_map]
  have hcomp : ((fun b : Bucket => b.relative_hours) ∘
      fun k => Bucket.mk k (bucketMean windows.flatten k)) = id := rfl
  rw [hcomp, List.map_id]

/-- Rounding to four decimals fixes every integer-valued rational. -/
lemma round4_intCast (n : Int) : round4 (n : ℚ) = n := by
  have h1 : ((n : ℚ) * 10000) = ((n * 10000 : Int) : ℚ) := by push_cast; ring
  simp only [round4, h1, Int.floor_intCast, sub_self]
  rw [if_pos (by norm_num)]
  push_cast
  field_simp

lemma anchorPrice_nil (t : Int) : anchorPrice [] t = none := rfl

lemma windowFor_of_anchor (eventTs spread : Int) (stocks : List PricePoint) (a : ℚ)
    (h : anchorPrice (sliceWindow stocks (floorToMinute eventTs) spread)
          (floorToMinute eventTs) = some a) :
    windowFor eventTs stocks spread =
      some ((sliceWindow stocks (floorToMinute eventTs) spread).map
              (normalizePoint (floorToMinute eventTs) a),
            peakOf ((sliceWindow stocks (floorToMinute eventTs) spread).map
              (normalizePoint (floorToMinute eventTs) a))) := by
  simp only [windowFor, h]

lemma windowFor_of_anchor_none (eventTs spread : Int) (stocks : List PricePoint)
    (h : anchorPrice (sliceWindow stocks (floorToMinute eventTs) spread)
          (floorToMinute eventTs) = none) :
    windowFor eventTs stocks spread = none := by
  simp only [windowFor, h]

lemma sliceWindow_singleton_self (t spread : Int) (c : ℚ) (hsp : 0 ≤ spread) :
    sliceWindow [{ timestamp := t, openPrice := c }] t spread
      = [{ timestamp := t, openPrice := c }] := by
  have h1 : t - spread ≤ t := by omega
  have h2 : t ≤ t + spread := by omega
  simp [sliceWindow, List.filter_cons, h1, h2]

lemma anchorPrice_singleton_self (t : Int) (c : ℚ) :
    anchorPrice [{ timestamp := t, openPrice := c }] t = some c := by
  unfold anchorPrice
  simp [List.filter_cons]

lemma getCol_setCol_self (df : Frame) (n : String) (v : List Int) :
    getCol (setCol df n v) n = some v := by
  induction df with
  | nil => simp [setCol, getCol, List.find?]
  | cons c rest ih =>
    by_cases h : c.1 = n
    · simp [setCol, if_pos h, getCol, List.find?]
    · have hb : (c.1 == n) = false := by simpa using h
      simp only [setCol, if_neg h]
      unfold getCol
      rw [List.find?_cons, hb]
      exact ih


/-- C1: for every non-empty event table and non-empty price series with at
least one match, `calculate_avg_price_at_tweet_time` floors each event
timestamp to its minute, looks the price up in the minute index by exact
floored-minute equality (no nearest fallback; unmatched events contribute no
value), and returns the arithmetic mean of the matched prices. -/
theorem C1_average_price_is_mean_of_exact_minute_matches
    (tweets : List Int) (stocks : List PricePoint)
    (h1 : tweets ≠ []) (h2 : stocks ≠ []) (h3 : matchedPrices tweets stocks ≠ []) :
    calculate_avg_price_at_tweet_time tweets stocks =
      (matchedPrices tweets stocks).sum / (matchedPrices tweets stocks).length := by
  rw [calculate_avg_eq_mean_matched tweets stocks h1 h2, if_neg h3]

/-- C1 witness: the concrete scenario — prices 100/200/300 at three
consecutive minutes, events at 1704067215, 1704067245, 1704067265 — averages
the matched prices 100, 100, 200 to 400/3. -/
theorem C1_average_price_witness :
    calculate_avg_price_at_tweet_time [1704067215, 1704067245, 1704067265]
      [⟨1704067200, 100⟩, ⟨1704067260, 200⟩, ⟨1704067320, 300⟩] = 400 / 3 := by
  have hm : matchedPrices [1704067215, 1704067245, 1704067265]
      [⟨1704067200, 100⟩, ⟨1704067260, 200⟩, ⟨1704067320, 300⟩] = [100, 100, 200] := by
    norm_num [matchedPrices, buildMinuteIndex, dropDupFirstAux, lookupMinute,
      floorToMinute, List.find?_cons, List.filterMap_cons]
    all_goals simp
  rw [C1_average_price_is_mean_of_exact_minute_matches _ _ (by simp) (by simp)
      (by rw [hm]; simp), hm]
  norm_num [List.sum_cons, List.sum_nil]

/-- C5: `calculate_avg_price_at_tweet_time` returns the defined sentinel 0
whenever the event table is empty, the price series is empty, or no event's
floored minute equals any price point's floored minute. -/
theorem C5_zero_sentinels :
    (∀ stocks, calculate_avg_price_at_tweet_time [] stocks = 0) ∧
    (∀ tweets, calculate_avg_price_at_tweet_time tweets [] = 0) ∧
    (∀ tweets stocks,
      (∀ ts ∈ tweets, ∀ p ∈ stocks, floorToMinute ts ≠ floorToMinute p.timestamp) →
      calculate_avg_price_at_tweet_time tweets stocks = 0) := by
  refine ⟨?_, ?_, ?_⟩
  · intro stocks
    simp [calculate_avg_price_at_tweet_time]
  · intro tweets
    unfold calculate_avg_price_at_tweet_time
    rw [if_pos (Or.inr rfl)]
  · intro tweets stocks h
    by_cases h1 : tweets = []
    · rw [h1]
      unfold calculate_avg_price_at_tweet_time
      rw [if_pos (Or.inl rfl)]
    · by_cases h2 : stocks = []
      · unfold calculate_avg_price_at_tweet_time
        rw [if_pos (Or.inr h2)]
      · have hmempty : matchedPrices tweets stocks = [] := by
          rw [matchedPrices, List.filterMap_eq_nil_iff]
          intro ts hts
          rw [lookupMinute_buildMinuteIndex]
          have : stocks.find? (fun p => floorToMinute p.timestamp == floorToMinute ts)
              = none := by
            rw [List.find?_eq_none]
            intro p hp hbeq
            have heq : floorToMinute p.timestamp = floorToMinute ts := by simpa using hbeq
            exact (h ts hts p hp) heq.symm
          rw [this]
          rfl
        rw [calculate_avg_eq_mean_matched tweets stocks h1 h2, if_pos hmempty]

/-- C5 witness: two 1999-era events against a 2024 price series match nothing
and yield the 0 sentinel. -/
theorem C5_zero_sentinels_witness :
    calculate_avg_price_at_tweet_time [915148800, 915148860]
      [⟨1704067200, 100⟩, ⟨1704067260, 200⟩, ⟨1704067320, 300⟩] = 0 :=
  C5_zero_sentinels.2.2 _ _ (by decide)

/-- C6: building the minute index keeps, for every floored minute, the first
price point of the series in source order and discards later duplicates; in
particular an event at 1704067205 against the duplicate-minute series
[(1704067200, 100), (1704067210, 999)] joins to 100. -/
theorem C6_minute_index_keeps_first_occurrence :
    (∀ (stocks : List PricePoint) (m : Int),
        lookupMinute (buildMinuteIndex stocks) m =
          (stocks.find? (fun p => floorToMinute p.timestamp == m)).map (·.openPrice)) ∧
    calculate_avg_price_at_tweet_time [1704067205]
      [⟨1704067200, 100⟩, ⟨1704067210, 999⟩] = 100 := by
  refine ⟨lookupMinute_buildMinuteIndex, ?_⟩
  norm_num [calculate_avg_price_at_tweet_time, buildMinuteIndex, dropDupFirstAux,
    lookupMinute, floorToMinute, List.find?_cons, List.filterMap_cons]
  all_goals simp

/-- C2: whenever the window slice contains the (unique) price point whose
timestamp is the event's floored minute `t`, that point is the anchor and its
normalized price is exactly 1; in the single-point case where the only point
sits at `t` itself, the output window is one point with
`normalized_price = 1`, `relative_hours = 0`, and no peak. -/
theorem C2_anchor_minute_normalizes_to_one :
    (∀ (eventTs spread : Int) (stocks : List PricePoint) (p : PricePoint),
        p ∈ sliceWindow stocks (floorToMinute eventTs) spread →
        p.timestamp = floorToMinute eventTs →
        (∀ q ∈ sliceWindow stocks (floorToMinute eventTs) spread,
          q.timestamp = floorToMinute eventTs → q = p) →
        p.openPrice ≠ 0 →
        ∃ pts peak, windowFor eventTs stocks spread = some (pts, peak) ∧
          pts = (sliceWindow stocks (floorToMinute eventTs) spread).map
            (normalizePoint (floorToMinute eventTs) p.openPrice) ∧
          ({ relative_hours := 0, normalized_price := 1 } : NormPoint) ∈ pts) ∧
    (∀ (eventTs spread : Int) (c : ℚ), 0 ≤ spread → c ≠ 0 →
        windowFor eventTs [{ timestamp := floorToMinute eventTs, openPrice := c }] spread =
          some ([{ relative_hours := 0, normalized_price := 1 }], none)) := by
  constructor
  · intro eventTs spread stocks p hmem hts huniq hnz
    have ha := anchorPrice_of_exact _ _ p hmem hts huniq
    rw [windowFor_of_anchor eventTs spread stocks p.openPrice ha]
    refine ⟨_, _, rfl, rfl, ?_⟩
    refine List.mem_map.mpr ⟨p, hmem, ?_⟩
    unfold normalizePoint
    rw [hts]
    simp [div_self hnz]
  · intro eventTs spread c hsp hc
    have hs := sliceWindow_singleton_self (floorToMinute eventTs) spread c hsp
    have ha : anchorPrice
        (sliceWindow [{ timestamp := floorToMinute eventTs, openPrice := c }]
          (floorToMinute eventTs) spread) (floorToMinute eventTs) = some c := by
      rw [hs]
      exact anchorPrice_singleton_self _ _
    rw [windowFor_of_anchor _ _ _ c ha, hs]
    have hnp : normalizePoint (floorToMinute eventTs) c
        { timestamp := floorToMinute eventTs, openPrice := c }
          = { relative_hours := 0, normalized_price := 1 } := by
      unfold normalizePoint
      simp [div_self hc]
    rw [List.map_singleton, hnp]
    simp [peakOf, List.filter_cons, idxmaxBy]

/-- C2 witness: a single price point of value 5 at the event's own floored
minute (event 1704067215, minute 1704067200, default spread) normalizes to
the one-point window [(0, 1)] with no peak. -/
theorem C2_anchor_minute_witness :
    windowFor 1704067215
      [{ timestamp := floorToMinute 1704067215, openPrice := 5 }] 21600 =
      some ([{ relative_hours := 0, normalized_price := 1 }], none) :=
  C2_anchor_minute_normalizes_to_one.2 1704067215 21600 5 (by decide) (by norm_num)

/-- C3: the aggregated impact curve's `relative_hours` keys are strictly
increasing (hence unique), every bucket's value is the mean of the normalized
prices falling in it, and the two-window scenario with single points (1, 1.1)
and (1, 0.9) collapses to the single bucket (1, 1), which is also the peak. -/
theorem C3_aggregate_strictly_increasing_buckets :
    (∀ windows : List (List NormPoint), windows ≠ [] →
        List.Chain' (· < ·) ((aggregate windows).map (fun b => b.relative_hours)) ∧
        ∀ b ∈ aggregate windows,
          b.mean_normalized_price = bucketMean windows.flatten b.relative_hours) ∧
    aggregate [[{ relative_hours := 1, normalized_price := 11/10 }],
               [{ relative_hours := 1, normalized_price := 9/10 }]] =
      [{ relative_hours := 1, mean_normalized_price := 1 }] ∧
    aggregatePeak [[{ relative_hours := 1, normalized_price := 11/10 }],
                   [{ relative_hours := 1, normalized_price := 9/10 }]] = some (1, 1) := by
  have hr1 : round4 (1 : ℚ) = 1 := by
    have := round4_intCast 1
    simpa using this
  refine ⟨?_, ?_, ?_⟩
  · intro windows _
    constructor
    · rw [aggregate_map_relative_hours]
      exact chain'_lt_sortedKeys _
    · intro b hb
      simp only [aggregate] at hb
      obtain ⟨k, hk, hbk⟩ := List.mem_map.mp hb
      rw [← hbk]
  · norm_num [aggregate, sortedKeys, insertKey, bucketMean, hr1, List.filter_cons]
  · norm_num [aggregatePeak, aggregate, sortedKeys, insertKey, bucketMean, hr1,
      idxmaxBy, List.filter_cons]

/-- C3 witness: the scenario's curve, produced through the general theorem at
the concrete two-window input, has strictly increasing keys. -/
theorem C3_aggregate_witness :
    List.Chain' (· < ·)
      ((aggregate [[{ relative_hours := 1, normalized_price := 11/10 }],
                   [{ relative_hours := 1, normalized_price := 9/10 }]]).map
        (fun b => b.relative_hours)) :=
  (C3_aggregate_strictly_increasing_buckets.1 _ (by simp)).1

/-- C8: the window slice is exactly the closed interval
[t - spread, t + spread] of the series; each sliced point maps to
`relative_hours = (epoch - t) / 3600`; an empty slice makes the event's result
`none`; a `none` event is skipped while the remaining events are still
processed; and the configured default spread is 21600 seconds (6 hours). -/
theorem C8_window_slice_closed_interval :
    (∀ (stocks : List PricePoint) (t spread : Int) (p : PricePoint),
        p ∈ sliceWindow stocks t spread ↔
          p ∈ stocks ∧ t - spread ≤ p.timestamp ∧ p.timestamp ≤ t + spread) ∧
    (∀ (eventTs spread : Int) (stocks : List PricePoint)
        (pts : List NormPoint) (peak : Option (ℚ × ℚ)),
        windowFor eventTs stocks spread = some (pts, peak) →
        ∃ a, anchorPrice (sliceWindow stocks (floorToMinute eventTs) spread)
              (floorToMinute eventTs) = some a ∧
          pts = (sliceWindow stocks (floorToMinute eventTs) spread).map
            (normalizePoint (floorToMinute eventTs) a) ∧
          pts.map (fun q => q.relative_hours) =
            (sliceWindow stocks (floorToMinute eventTs) spread).map
              (fun p => ((p.timestamp - floorToMinute eventTs : Int) : ℚ) / 3600)) ∧
    (∀ (eventTs spread : Int) (stocks : List PricePoint),
        sliceWindow stocks (floorToMinute eventTs) spread = [] →
        windowFor eventTs stocks spread = none) ∧
    (∀ (e : Int) (rest : List Int) (stocks : List PricePoint) (spread : Int),
        windowFor e stocks spread = none →
        processAllTweets stocks spread (e :: rest) = processAllTweets stocks spread rest) ∧
    RELATIVE_TIME_SPREAD_HOURS = 21600 := by
  refine ⟨?_, ?_, ?_, ?_, by norm_num [RELATIVE_TIME_SPREAD_HOURS]⟩
  · intro stocks t spread p
    simp [sliceWindow, List.mem_filter, and_assoc]
  · intro eventTs spread stocks pts peak h
    rcases ha : anchorPrice (sliceWindow stocks (floorToMinute eventTs) spread)
        (floorToMinute eventTs) with _ | a
    · rw [windowFor_of_anchor_none _ _ _ ha] at h
      exact absurd h (by simp)
    · rw [windowFor_of_anchor _ _ _ a ha] at h
      have hpts := (Prod.mk.injEq _ _ _ _).mp (Option.some.inj h)
      refine ⟨a, rfl, hpts.1.symm, ?_⟩
      rw [← hpts.1, List.map_map]
      rfl
  · intro eventTs spread stocks hslice
    exact windowFor_of_anchor_none _ _ _ (by rw [hslice]; rfl)
  · intro e rest stocks spread h
    simp only [processAllTweets, h]

/-- C8 witness: an empty price series gives an empty slice, so the event's
windowed result is `none`. -/
theorem C8_window_slice_witness : windowFor 1704067200 [] 21600 = none :=
  C8_window_slice_closed_interval.2.2.1 1704067200 21600 [] rfl

/-- C4: the code has no guard for a zero anchor price.  At a window whose only
point carries price 0 at the event's floored minute, `_process_single_tweet`
succeeds (returns a window, not an error) and normalizes by dividing by zero:
in IEEE floats this silently yields inf/NaN, in this exact embedding the
division-by-zero junk value 0.  No `DivisionByZeroPrice` (or any other)
failure path exists in the source. -/
theorem C4_zero_anchor_unguarded :
    windowFor 1704067200 [{ timestamp := 1704067200, openPrice := 0 }] 21600 =
      some ([{ relative_hours := 0, normalized_price := 0 }], none) := by
  norm_num [windowFor, sliceWindow, anchorPrice, floorToMinute, idxmaxBy, nearestFirst,
    peakOf, normalizePoint, List.filter_cons]

/-- C9 counterexample: `convert_unix_timestamp_to_datetime` assigns the new
datetime column directly on the caller's frame (no `df.copy()`), so after the
call the object passed in is no longer equal to its original value — the
claim that no conversion operation mutates its input fails on this input. -/
theorem C9_mutation_counterexample :
    ∃ r : Frame × Frame,
      convert_unix_timestamp_to_datetime [("timestamp", [1704067200])]
        "timestamp" "created_at" = some r ∧
      r.1 ≠ [("timestamp", [1704067200])] := by
  refine ⟨([("timestamp", [1704067200]), ("created_at", [1704067200])],
           [("timestamp", [1704067200]), ("created_at", [1704067200])]), ?_, ?_⟩
  · rfl
  · simp

/-- C9 amended: `convert_datetime_to_unix_timestamp` copies first and leaves
the caller's frame unchanged, while `convert_unix_timestamp_to_datetime`
writes the new column in place on the caller's frame and returns that same
object, so the input is mutated whenever the new column's prior state differs
from the written value. -/
theorem C9_amended_conversion_frame_effects :
    (∀ (df : Frame) (dc nc : String) (dt : List Int),
        getCol df dc = some dt →
        convert_datetime_to_unix_timestamp df dc nc
          = some (df, setCol (setCol df dc dt) nc dt)) ∧
    (∀ (df : Frame) (tc nc : String) (ts : List Int),
        getCol df tc = some ts →
        convert_unix_timestamp_to_datetime df tc nc
          = some (setCol df nc ts, setCol df nc ts)) ∧
    (∀ (df : Frame) (tc nc : String) (ts : List Int),
        getCol df tc = some ts → getCol df nc ≠ some ts →
        (convert_unix_timestamp_to_datetime df tc nc).map Prod.fst ≠ some df) := by
  refine ⟨?_, ?_, ?_⟩
  · intro df dc nc dt hget
    simp only [convert_datetime_to_unix_timestamp, hget, Option.map_some']
  · intro df tc nc ts hget
    simp only [convert_unix_timestamp_to_datetime, hget, Option.map_some']
  · intro df tc nc ts hget hne habs
    simp only [convert_unix_timestamp_to_datetime, hget, Option.map_some'] at habs
    have hmut : setCol df nc ts = df := Option.some.inj habs
    exact hne (by rw [← hmut, getCol_setCol_self])

/-- C9 amended witness: at a one-column concrete frame, the datetime-to-unix
direction leaves the caller's frame as the first component and produces the
two-column copy as the returned frame. -/
theorem C9_amended_witness :
    convert_datetime_to_unix_timestamp [("created_at", [5])] "created_at" "timestamp"
      = some ([("created_at", [5])], [("created_at", [5]), ("timestamp", [5])]) := by
  have h := C9_amended_conversion_frame_effects.1 [("created_at", [5])]
    "created_at" "timestamp" [5] rfl
  rw [h]
  rfl

/-- C10 counterexample: with a process-local UTC offset of +3600 seconds (for
example CET in winter), the processing.py variant returns 1704063600 for
2024-01-01 while the formatters.py variant returns 1704067200 — the two
implementations do not return the same integer for every parseable date. -/
theorem C10_convert_date_counterexample :
    processing_convert_date_to_timestamp 2024 1 1 3600
      ≠ formatters_convert_date_to_timestamp 2024 1 1 := by decide

/-- C10 amended: the two variants agree on a date exactly when the
process-local UTC offset in effect is zero; in general the processing.py
result is the formatters.py result minus that offset.  At 2024-01-01 the
UTC variant yields 1704067200 and the +3600-offset variant 1704063600. -/
theorem C10_amended_convert_date_agree_iff_utc :
    (∀ (y m d tzOffset : Int),
        processing_convert_date_to_timestamp y m d tzOffset
          = formatters_convert_date_to_timestamp y m d ↔ tzOffset = 0) ∧
    (∀ (y m d tzOffset : Int),
        processing_convert_date_to_timestamp y m d tzOffset
          = formatters_convert_date_to_timestamp y m d - tzOffset) ∧
    formatters_convert_date_to_timestamp 2024 1 1 = 1704067200 ∧
    processing_convert_date_to_timestamp 2024 1 1 3600 = 1704063600 := by
  refine ⟨?_, ?_, by decide, by decide⟩
  · intro y m d tz
    unfold processing_convert_date_to_timestamp formatters_convert_date_to_timestamp
    exact sub_eq_self
  · intro y m d tz
    rfl
